import Mathlib

set_option maxHeartbeats 1000000

namespace BplistRs

/-- Error kinds of the decoder, embedding the Error enum in src/result.rs
(EOF, IOError, EncodingError, InvalidFormat).  The NotFound constructor is
required by BPList::get and seek_ref in src/bplist/mod.rs, whose own result
module file is not among the sources; the spec lists NotFound among the
error kinds, so it is included here. -/
inductive Err where
  | EOF : Err
  | IOError : Err
  | EncodingError : Err
  | InvalidFormat : String → Err
  | NotFound : Err
deriving DecidableEq, Repr

/-- The decoded value tree, embedding pub enum BPList in src/bplist/mod.rs.
Real holds the 64-bit pattern of the f64 built by f64::from_be_bytes (the
program never inspects the floating value, and PartialEq never equates two
Reals).  Str holds the sequence of Unicode scalar values of a Rust String.
Data and UID hold byte sequences. -/
inductive BPList where
  | Null : BPList
  | Bool : Bool → BPList
  | Filler : BPList
  | Int : Int → BPList
  | Real : Nat → BPList
  | Data : List Nat → BPList
  | Str : List Nat → BPList
  | UID : List Nat → BPList
  | Array : List BPList → BPList
  | Dict : List (BPList × BPList) → BPList

/-- Outcome of one decoding step over the seekable byte source: ok carries
the produced value together with the cursor position after the step, err a
returned Error value, crash a Rust panic (the todo macro arms of load_item
and the length guard of from_be_bytes), and fuel marks exhaustion of the
recursion fuel, an artifact of the embedding only. -/
inductive DR (α : Type) where
  | ok : α → Nat → DR α
  | err : Err → DR α
  | crash : DR α
  | fuel : DR α

/-- Sequencing of decoding steps: failures, crashes and fuel exhaustion
propagate, mirroring the question-mark operator and early returns. -/
def DR.bind {α β : Type} : DR α → (α → Nat → DR β) → DR β
  | .ok v p, f => f v p
  | .err e, _ => .err e
  | .crash, _ => .crash
  | .fuel, _ => .fuel

/-- Reads exactly n bytes at position pos of the byte source data,
modelling read_exact on a File: it succeeds if and only if n bytes are
available there (a shortfall produces an io error of kind UnexpectedEof,
surfacing as Err.IOError at every call site). -/
def readExact (data : List Nat) (pos n : Nat) : Option (List Nat) :=
  if pos + n ≤ data.length then some ((data.drop pos).take n) else none

/-- Big-endian accumulation r := r * 256 + b over a byte list as a plain
natural number, with no word-size truncation. -/
def beAcc (r : Nat) : List Nat → Nat
  | [] => r
  | b :: bs => beAcc (r * 256 + b) bs

/-- One u64 accumulation step register = (register << 8) | (byte as u64)
of from_be_bytes in src/bplist/util.rs and src/util.rs: the left shift
wraps modulo 2 ^ 64 and the or folds in the byte (a u8, hence the mod 256
of the cast). -/
def u64shl8or (r b : Nat) : Nat := ((r <<< 8) % (2 ^ 64)) ||| (b % 256)

/-- Big-endian accumulation of a byte list in u64 arithmetic, the loop of
from_be_bytes. -/
def beAcc64 (r : Nat) : List Nat → Nat
  | [] => r
  | b :: bs => beAcc64 (u64shl8or r b) bs

/-- Embeds from_be_bytes in src/bplist/util.rs (and its twin in
src/util.rs): none models the explicit panic taken when the input slice is
longer than 8 bytes, otherwise the u64 big-endian accumulation of the
bytes is returned. -/
def fromBeBytes (bytes : List Nat) : Option Nat :=
  if bytes.length > 8 then none
  else some (beAcc64 0 bytes)

/-- Value of u64::from_be_bytes on an 8-byte buffer (each entry a u8,
hence the mod 256). -/
def u64be (buf : List Nat) : Nat := beAcc 0 (List.map (fun b => b % 256) buf)

/-- Reinterpretation of the low 64 bits of a natural number as a signed
i64 in twos complement. -/
def toI64 (n : Nat) : Int :=
  if n % 2 ^ 64 < 2 ^ 63 then Int.ofNat (n % 2 ^ 64)
  else Int.ofNat (n % 2 ^ 64) - 2 ^ 64

/-- The cast length as usize applied to an i64 length, keeping the 64-bit
pattern. -/
def usizeOfI64 (n : Int) : Nat := (n.emod (2 ^ 64)).toNat

/-- Continuation byte test of UTF-8 validation: bytes 0x80 to 0xBF. -/
def isUtf8Cont (b : Nat) : Bool := decide (128 ≤ b ∧ b ≤ 191)

/-- Admissible second byte of a three-byte UTF-8 sequence, which depends
on the leading byte (surrogate and overlong exclusions). -/
def utf8Second3 (b0 b1 : Nat) : Bool :=
  if b0 = 224 then decide (160 ≤ b1 ∧ b1 ≤ 191)
  else if b0 = 237 then decide (128 ≤ b1 ∧ b1 ≤ 159)
  else isUtf8Cont b1

/-- Admissible second byte of a four-byte UTF-8 sequence, which depends on
the leading byte (overlong and beyond-plane exclusions). -/
def utf8Second4 (b0 b1 : Nat) : Bool :=
  if b0 = 240 then decide (144 ≤ b1 ∧ b1 ≤ 191)
  else if b0 = 244 then decide (128 ≤ b1 ∧ b1 ≤ 143)
  else isUtf8Cont b1

/-- UTF-8 validation and decoding to Unicode scalar values, the behaviour
of str::from_utf8 used by the magic check in BPList::load and by as_utf8
in src/bplist/util.rs; none models Err(Utf8Error). -/
def decodeUtf8 : List Nat → Option (List Nat)
  | [] => some []
  | b0 :: rest =>
    if b0 < 128 then
      match decodeUtf8 rest with
      | some cps => some (b0 :: cps)
      | none => none
    else if 194 ≤ b0 ∧ b0 ≤ 223 then
      match rest with
      | b1 :: rest1 =>
        if isUtf8Cont b1 then
          match decodeUtf8 rest1 with
          | some cps => some (((b0 - 192) * 64 + (b1 - 128)) :: cps)
          | none => none
        else none
      | [] => none
    else if 224 ≤ b0 ∧ b0 ≤ 239 then
      match rest with
      | b1 :: b2 :: rest2 =>
        if utf8Second3 b0 b1 ∧ isUtf8Cont b2 then
          match decodeUtf8 rest2 with
          | some cps =>
            some (((b0 - 224) * 4096 + (b1 - 128) * 64 + (b2 - 128)) :: cps)
          | none => none
        else none
      | _ => none
    else if 240 ≤ b0 ∧ b0 ≤ 244 then
      match rest with
      | b1 :: b2 :: b3 :: rest3 =>
        if utf8Second4 b0 b1 ∧ isUtf8Cont b2 ∧ isUtf8Cont b3 then
          match decodeUtf8 rest3 with
          | some cps =>
            some (((b0 - 240) * 262144 + (b1 - 128) * 4096
              + (b2 - 128) * 64 + (b3 - 128)) :: cps)
          | none => none
        else none
      | _ => none
    else none

/-- Pairs of bytes combined into big-endian 16-bit code units, the loop of
as_utf16 in src/bplist/util.rs: (buf[2i] as u16) << 8 | buf[2i+1] as u16
(entries are u8, hence the mod 256 of the casts). -/
def combineUtf16 : List Nat → List Nat
  | b1 :: b2 :: rest => (((b1 % 256) <<< 8) ||| (b2 % 256)) :: combineUtf16 rest
  | _ => []

/-- UTF-16 validation and decoding of a code-unit sequence to Unicode
scalar values, the behaviour of String::from_utf16; none models
Err(FromUtf16Error), reached exactly at an unpaired surrogate. -/
def utf16Decode : List Nat → Option (List Nat)
  | [] => some []
  | u :: rest =>
    if u < 55296 ∨ 57343 < u then
      match utf16Decode rest with
      | some cps => some (u :: cps)
      | none => none
    else if u ≤ 56319 then
      match rest with
      | w :: rest1 =>
        if 56320 ≤ w ∧ w ≤ 57343 then
          match utf16Decode rest1 with
          | some cps => some ((65536 + (u - 55296) * 1024 + (w - 56320)) :: cps)
          | none => none
        else none
      | [] => none
    else none

/-- Embeds as_utf8 in src/bplist/util.rs: UTF-8 validation failing with
EncodingError. -/
def asUtf8 (buf : List Nat) : Except Err (List Nat) :=
  match decodeUtf8 buf with
  | none => .error Err.EncodingError
  | some s => .ok s

/-- Embeds as_utf16 in src/bplist/util.rs: an odd byte count fails with
InvalidFormat, then the bytes are combined into big-endian 16-bit code
units and decoded, an invalid code-unit sequence failing with
EncodingError. -/
def asUtf16 (buf : List Nat) : Except Err (List Nat) :=
  if buf.length % 2 ≠ 0 then .error (Err.InvalidFormat "utf16 buf must be even length")
  else
    match utf16Decode (combineUtf16 buf) with
    | none => .error Err.EncodingError
    | some s => .ok s

/-- Embeds pub struct Trailer in src/trailer.rs: offset-table entry width,
object-reference width, object count, root object table index, and the
file offset where the offset table starts. -/
structure Trailer where
  offset_table_offset_size : Nat
  object_ref_size : Nat
  num_objects : Nat
  top_object_offset : Nat
  offset_table_start : Nat
deriving DecidableEq, Repr

/-- Single byte read into a one-byte buffer by read_exact, yielding the u8
value. -/
def readU8 (data : List Nat) (pos : Nat) : Option Nat :=
  (readExact data pos 1).map (fun l => l.headD 0 % 256)

/-- Eight bytes read by read_exact and converted with u64::from_be_bytes. -/
def readU64 (data : List Nat) (pos : Nat) : Option Nat :=
  (readExact data pos 8).map u64be

/-- Embeds Trailer::load in src/trailer.rs, reading at pos (the caller in
BPList::load seeks to 32 bytes before the end first): 6 reserved bytes,
the two width bytes, then three big-endian u64 fields; any shortfall
surfaces as the io UnexpectedEof error. -/
def trailerLoad (data : List Nat) (pos : Nat) : DR Trailer :=
  match readExact data pos 6 with
  | none => .err Err.IOError
  | some _ =>
    match readU8 data (pos + 6) with
    | none => .err Err.IOError
    | some otos =>
      match readU8 data (pos + 7) with
      | none => .err Err.IOError
      | some ors =>
        match readU64 data (pos + 8) with
        | none => .err Err.IOError
        | some numo =>
          match readU64 data (pos + 16) with
          | none => .err Err.IOError
          | some topo =>
            match readU64 data (pos + 24) with
            | none => .err Err.IOError
            | some otst =>
              .ok (Trailer.mk otos ors numo topo otst) (pos + 32)

/-- Loop shared by ReferenceTable::load in src/reference_table.rs and the
reference-reading loops of load_array and load_dict in src/bplist/mod.rs:
count times, read size bytes and convert them with from_be_bytes (whose
over-8-bytes panic propagates as crash), collecting the values in order. -/
def readBeInts (data : List Nat) (size : Nat) : Nat → Nat → DR (List Nat)
  | 0, pos => DR.ok [] pos
  | Nat.succ k, pos =>
    match readExact data pos size with
    | none => .err Err.IOError
    | some buf =>
      match fromBeBytes buf with
      | none => .crash
      | some r =>
        DR.bind (readBeInts data size k (pos + size)) fun rest pend =>
          .ok (r :: rest) pend

/-- Embeds ReferenceTable::load: num_objects entries of width
offset_table_offset_size are read sequentially; the HashMap keyed by
0..num_objects is represented by the list whose index i holds the offset
of object i, so that ReferenceTable::get is lookup by list index. -/
def referenceTableLoad (data : List Nat) (t : Trailer) (pos : Nat) : DR (List Nat) :=
  readBeInts data t.offset_table_offset_size t.num_objects pos

/-- Embeds load_single in src/bplist/mod.rs: the low nibble selects Null,
false, true or Filler, anything else is InvalidFormat. -/
def loadSingle (marker_low : Nat) (pos : Nat) : DR BPList :=
  if marker_low = 0 then .ok BPList.Null pos
  else if marker_low = 8 then .ok (BPList.Bool false) pos
  else if marker_low = 9 then .ok (BPList.Bool true) pos
  else if marker_low = 15 then .ok BPList.Filler pos
  else .err (Err.InvalidFormat "invalid single byte")

/-- Embeds load_int in src/bplist/mod.rs: byte_count = 2 ^ marker_low via
the doubling loop, that many bytes read exactly, then the i64 accumulation
n = (n << 8) | byte, whose final 64-bit pattern is read back as signed. -/
def loadInt (data : List Nat) (pos marker_low : Nat) : DR BPList :=
  match readExact data pos (2 ^ marker_low) with
  | none => .err Err.IOError
  | some bytes => .ok (BPList.Int (toI64 (beAcc64 0 bytes))) (pos + 2 ^ marker_low)

/-- Embeds load_real in src/bplist/mod.rs: byte_count = 2 ^ marker_low
bytes are read and written right-aligned into an 8-byte buffer (bytes
beyond the first 8, counted from the end, are dropped by the early break),
and the buffer is read as an f64 bit pattern. -/
def loadReal (data : List Nat) (pos marker_low : Nat) : DR BPList :=
  match readExact data pos (2 ^ marker_low) with
  | none => .err Err.IOError
  | some bytes =>
    .ok (BPList.Real (u64be (bytes.drop (bytes.length - 8)))) (pos + 2 ^ marker_low)

/-- Embeds load_length in src/bplist/mod.rs, li being the recursive
load_item at the current fuel: a low nibble of 0b1111 decodes the next
object, which must be an Int, anything else failing with InvalidFormat;
otherwise the low nibble itself is the length. -/
def loadLength (li : Nat → DR BPList) (marker_low pos : Nat) : DR Int :=
  if marker_low = 15 then
    match li pos with
    | .ok (BPList.Int n) p => .ok n p
    | .ok _ _ => .err (Err.InvalidFormat "invalid dict size")
    | .err e => .err e
    | .crash => .crash
    | .fuel => .fuel
  else .ok (Int.ofNat marker_low) pos

/-- Embeds load_data in src/bplist/mod.rs: length via load_length, then
that many raw bytes (the vec allocation casts the i64 length to usize). -/
def loadData (data : List Nat) (li : Nat → DR BPList) (marker_low pos : Nat) : DR BPList :=
  DR.bind (loadLength li marker_low pos) fun len p =>
    match readExact data p (usizeOfI64 len) with
    | none => .err Err.IOError
    | some buf => .ok (BPList.Data buf) (p + usizeOfI64 len)

/-- Embeds load_ascii_str in src/bplist/mod.rs: length via load_length,
that many bytes read, decoded by as_utf8. -/
def loadAsciiStr (data : List Nat) (li : Nat → DR BPList) (marker_low pos : Nat) : DR BPList :=
  DR.bind (loadLength li marker_low pos) fun len p =>
    match readExact data p (usizeOfI64 len) with
    | none => .err Err.IOError
    | some buf =>
      match asUtf8 buf with
      | .error e => .err e
      | .ok s => .ok (BPList.Str s) (p + usizeOfI64 len)

/-- Embeds load_utf16_str in src/bplist/mod.rs: length via load_length,
length * 2 bytes read (the usize product wraps modulo 2 ^ 64), decoded by
as_utf16. -/
def loadUtf16Str (data : List Nat) (li : Nat → DR BPList) (marker_low pos : Nat) : DR BPList :=
  DR.bind (loadLength li marker_low pos) fun len p =>
    match readExact data p (usizeOfI64 len * 2 % 2 ^ 64) with
    | none => .err Err.IOError
    | some buf =>
      match asUtf16 buf with
      | .error e => .err e
      | .ok s => .ok (BPList.Str s) (p + usizeOfI64 len * 2 % 2 ^ 64)

/-- Embeds load_uid in src/bplist/mod.rs: marker_low + 1 raw bytes kept
opaque. -/
def loadUid (data : List Nat) (pos marker_low : Nat) : DR BPList :=
  match readExact data pos (marker_low + 1) with
  | none => .err Err.IOError
  | some buf => .ok (BPList.UID buf) (pos + (marker_low + 1))

/-- Decoding loop over the references of an array in load_array: each
reference is resolved through the reference table (a miss is NotFound),
the cursor seeks to the resolved offset, and the object there is decoded;
the incoming cursor position is discarded by the absolute seek. -/
def loadArrayItems (li : Nat → DR BPList) (rt : List Nat) : List Nat → Nat → DR (List BPList)
  | [], pos => DR.ok [] pos
  | r :: rest, _pos =>
    match rt[r]? with
    | none => .err Err.NotFound
    | some off =>
      DR.bind (li off) fun obj p =>
        DR.bind (loadArrayItems li rt rest p) fun objs pend =>
          .ok (obj :: objs) pend

/-- Embeds load_array in src/bplist/mod.rs: length via load_length, that
many references of width object_ref_size read through from_be_bytes (a
negative i64 length yields an empty iteration), then each reference
resolved, seeked to and decoded in order. -/
def loadArray (data : List Nat) (li : Nat → DR BPList) (t : Trailer) (rt : List Nat)
    (marker_low pos : Nat) : DR BPList :=
  DR.bind (loadLength li marker_low pos) fun len p =>
    DR.bind (readBeInts data t.object_ref_size len.toNat p) fun refs p2 =>
      DR.bind (loadArrayItems li rt refs p2) fun objs pend =>
        .ok (BPList.Array objs) pend

/-- Decoding loop over the zipped key and value references of a dict in
load_dict: for each pair, the key reference is resolved, seeked to and
decoded, then the value reference likewise, and the pair is appended. -/
def loadDictItems (li : Nat → DR BPList) (rt : List Nat) :
    List (Nat × Nat) → Nat → DR (List (BPList × BPList))
  | [], pos => DR.ok [] pos
  | (kr, vr) :: rest, _pos =>
    match rt[kr]? with
    | none => .err Err.NotFound
    | some offk =>
      DR.bind (li offk) fun key _pk =>
        match rt[vr]? with
        | none => .err Err.NotFound
        | some offv =>
          DR.bind (li offv) fun obj pv =>
            DR.bind (loadDictItems li rt rest pv) fun objs pend =>
              .ok ((key, obj) :: objs) pend

/-- Embeds load_dict in src/bplist/mod.rs: length via load_length, then
length key-references followed by length value-references read as two
separate contiguous runs, zipped positionally, and each pair decoded by
resolving and seeking to the key then the value. -/
def loadDict (data : List Nat) (li : Nat → DR BPList) (t : Trailer) (rt : List Nat)
    (marker_low pos : Nat) : DR BPList :=
  DR.bind (loadLength li marker_low pos) fun len p =>
    DR.bind (readBeInts data t.object_ref_size len.toNat p) fun keyrefs p2 =>
      DR.bind (readBeInts data t.object_ref_size len.toNat p2) fun objrefs p3 =>
        DR.bind (loadDictItems li rt (keyrefs.zip objrefs) p3) fun objs pend =>
          .ok (BPList.Dict objs) pend

/-- Embeds BPList::load_item in src/bplist/mod.rs: one marker byte is read
(zero bytes read at end of input is Err::EOF), split into high and low
nibble, and dispatched; the date and set arms are the todo macro, a
panic, modelled by crash.  The extra fuel argument bounds the recursion
depth of the embedding; at 0 fuel it yields the fuel marker. -/
def loadItem (data : List Nat) (t : Trailer) (rt : List Nat) : Nat → Nat → DR BPList
  | 0, _ => DR.fuel
  | Nat.succ fuelLeft, pos =>
    match data[pos]? with
    | none => .err Err.EOF
    | some mb =>
      let m := mb % 256
      let marker_high := m / 16
      let marker_low := m % 16
      if marker_high = 0 then loadSingle marker_low (pos + 1)
      else if marker_high = 1 then loadInt data (pos + 1) marker_low
      else if marker_high = 2 then loadReal data (pos + 1) marker_low
      else if marker_high = 3 then .crash
      else if marker_high = 4 then
        loadData data (loadItem data t rt fuelLeft) marker_low (pos + 1)
      else if marker_high = 5 then
        loadAsciiStr data (loadItem data t rt fuelLeft) marker_low (pos + 1)
      else if marker_high = 6 then
        loadUtf16Str data (loadItem data t rt fuelLeft) marker_low (pos + 1)
      else if marker_high = 8 then loadUid data (pos + 1) marker_low
      else if marker_high = 10 then
        loadArray data (loadItem data t rt fuelLeft) t rt marker_low (pos + 1)
      else if marker_high = 12 then .crash
      else if marker_high = 13 then
        loadDict data (loadItem data t rt fuelLeft) t rt marker_low (pos + 1)
      else .err (Err.InvalidFormat "unrecognized part")

/-- Unicode scalar values of the string bplist00, the expected magic. -/
def bplist00 : List Nat := [98, 112, 108, 105, 115, 116, 48, 48]

/-- Embeds BPList::load in src/bplist/mod.rs: the first 8 bytes are read
and checked through str::from_utf8 against bplist00 (an undecodable buffer
is EncodingError, a different string InvalidFormat), the cursor position 8
after the magic is remembered as object_table_pos, the trailer is read 32
bytes before the end (a seek before byte 0 is an io error), the reference
table is built from offset_table_start, and load_item runs at
object_table_pos. -/
def load (data : List Nat) (fuel : Nat) : DR BPList :=
  match readExact data 0 8 with
  | none => .err Err.IOError
  | some magic_buf =>
    match decodeUtf8 magic_buf with
    | none => .err Err.EncodingError
    | some magic_buf_str =>
      if magic_buf_str ≠ bplist00 then .err (Err.InvalidFormat "invalid magic string")
      else
        if data.length < 32 then .err Err.IOError
        else
          DR.bind (trailerLoad data (data.length - 32)) fun trailer _ =>
            DR.bind (referenceTableLoad data trailer trailer.offset_table_start)
              fun reference_table _ =>
                loadItem data trailer reference_table fuel 8

/-- Embeds impl PartialEq for BPList in src/bplist/mod.rs: Null, Filler
compare trivially, Bool, Int, Data, Str, UID by payload, and every other
combination, in particular any comparison touching Real, Array or Dict, is
false. -/
def beq : BPList → BPList → Bool
  | BPList.Null, BPList.Null => true
  | BPList.Bool b1, BPList.Bool b2 => b1 == b2
  | BPList.Filler, BPList.Filler => true
  | BPList.Int i1, BPList.Int i2 => i1 == i2
  | BPList.Data d1, BPList.Data d2 => d1 == d2
  | BPList.Str s1, BPList.Str s2 => s1 == s2
  | BPList.UID u1, BPList.UID u2 => u1 == u2
  | _, _ => false

/-- Scanning loop of BPList::get over the pairs of a Dict: the value of
the first pair whose key equals the candidate under PartialEq is returned,
a full scan without a match is NotFound. -/
def getLoop (lookup_key : BPList) : List (BPList × BPList) → Except Err BPList
  | [] => .error Err.NotFound
  | (k, v) :: rest =>
    if beq k lookup_key then .ok v else getLoop lookup_key rest

/-- Embeds BPList::get in src/bplist/mod.rs: a Dict is scanned in order
for a key equal to the candidate under PartialEq, every other receiving
variant is NotFound. -/
def get (self : BPList) (lookup_key : BPList) : Except Err BPList :=
  match self with
  | BPList.Dict items => getLoop lookup_key items
  | _ => .error Err.NotFound

/-- Embeds BPList::gets: the string key is wrapped into Str and get is
delegated to. -/
def gets (self : BPList) (lookup_key : List Nat) : Except Err BPList :=
  get self (BPList.Str lookup_key)

/-- Embeds BPList::geti: the usize key is cast to i64 (keeping the 64-bit
pattern), wrapped into Int, and get is delegated to. -/
def geti (self : BPList) (lookup_key : Nat) : Except Err BPList :=
  get self (BPList.Int (toI64 lookup_key))

/-- Discriminator: whether an error value is the InvalidFormat kind (the
MalformedFormat family of the spec), with any message. -/
def errIsInvalidFormat : Err → Bool
  | Err.InvalidFormat _ => true
  | _ => false

/-- Discriminator: whether a decode outcome is a returned error of the
EncodingError kind (the TextEncodingFailure of the spec). -/
def exceptIsEncodingFailure (r : Except Err (List Nat)) : Bool :=
  match r with
  | Except.error Err.EncodingError => true
  | _ => false

/-- Discriminator: whether a decode outcome is a returned error of the
InvalidFormat kind. -/
def drIsInvalidFormat (r : DR BPList) : Bool :=
  match r with
  | DR.err e => errIsInvalidFormat e
  | _ => false

/-- A 44-byte file: the magic, the object true at offset 8 and the object
false at offset 9, a 1-byte-wide offset table [8, 9] at offset 10, and a
trailer declaring 2 objects, root object table index 1, and offset table
start 10. -/
def c1file : List Nat :=
  [98, 112, 108, 105, 115, 116, 48, 48] ++ [9, 8] ++ [8, 9]
    ++ List.replicate 6 0 ++ [1, 1]
    ++ (List.replicate 7 0 ++ [2])
    ++ (List.replicate 7 0 ++ [1])
    ++ (List.replicate 7 0 ++ [10])

/-- A 44-byte file whose first 8 bytes are 0xFF, not valid UTF-8. -/
def badMagicFile : List Nat := List.replicate 8 255 ++ List.replicate 36 0

/-- Value produced by a successful decoding step, discarding the cursor. -/
def drVal {α : Type} (r : DR α) : Option α :=
  match r with
  | DR.ok v _ => some v
  | _ => none

/-- Direct decode of the object behind reference r: the reference is
resolved through the reference table and load_item runs at the resolved
byte offset, as a standalone operation. -/
def decodeAt (data : List Nat) (t : Trailer) (rt : List Nat) (fuel r : Nat) :
    Option BPList :=
  match rt[r]? with
  | none => none
  | some off => drVal (loadItem data t rt fuel off)

theorem or_eq_add_of_mod_pow_eq_zero (k : Nat) :
    ∀ m b : Nat, m % 2 ^ k = 0 → b < 2 ^ k → m ||| b = m + b := by
  induction k with
  | zero =>
    intro m b _ hb
    interval_cases b
    simp
  | succ k ih =>
    intro m b hm hb
    obtain ⟨q, hq⟩ : 2 ^ (k + 1) ∣ m := Nat.dvd_of_mod_eq_zero hm
    have hq2 : m = 2 * (2 ^ k * q) := by rw [hq, pow_succ]; ring
    have hdiv : m / 2 = 2 ^ k * q := by omega
    have hmod2 : m % 2 = 0 := by omega
    have hm2 : (m / 2) % 2 ^ k = 0 := by rw [hdiv]; exact Nat.mul_mod_right _ _
    have hb2 : b / 2 < 2 ^ k := by
      rw [Nat.div_lt_iff_lt_mul (by norm_num)]
      calc b < 2 ^ (k + 1) := hb
        _ = 2 ^ k * 2 := by rw [pow_succ]
    have hdivor : (m ||| b) / 2 = m / 2 + b / 2 := by
      rw [Nat.or_div_two]; exact ih (m / 2) (b / 2) hm2 hb2
    have hmodor : (m ||| b) % 2 = b % 2 := by
      have h1 := Nat.or_mod_two_eq_one (a := m) (b := b)
      rcases Nat.mod_two_eq_zero_or_one (m ||| b) with h2 | h2 <;>
        rcases Nat.mod_two_eq_zero_or_one b with h3 | h3 <;> omega
    omega

theorem beAcc_lt (bytes : List Nat) :
    ∀ r : Nat, (∀ b ∈ bytes, b < 256) →
      beAcc r bytes < (r + 1) * 2 ^ (8 * bytes.length) := by
  induction bytes with
  | nil => intro r _; simp [beAcc]
  | cons b bs ih =>
    intro r hb
    have hblt : b < 256 := hb b (by simp)
    have h1 : beAcc (r * 256 + b) bs < (r * 256 + b + 1) * 2 ^ (8 * bs.length) :=
      ih (r * 256 + b) (fun x hx => hb x (by simp [hx]))
    have h2 : (r * 256 + b + 1) * 2 ^ (8 * bs.length)
        ≤ (r + 1) * 2 ^ (8 * (b :: bs).length) := by
      have he : 8 * (b :: bs).length = 8 * bs.length + 8 := by
        simp [List.length_cons]; ring
      rw [he, pow_add]
      have : r * 256 + b + 1 ≤ (r + 1) * 2 ^ 8 := by norm_num; omega
      calc (r * 256 + b + 1) * 2 ^ (8 * bs.length)
          ≤ (r + 1) * 2 ^ 8 * 2 ^ (8 * bs.length) :=
            Nat.mul_le_mul_right _ this
        _ = (r + 1) * (2 ^ (8 * bs.length) * 2 ^ 8) := by ring
    have := lt_of_lt_of_le h1 h2
    simpa [beAcc] using this

theorem beAcc64_eq_beAcc (bytes : List Nat) :
    ∀ r : Nat, (∀ b ∈ bytes, b < 256) →
      (r + 1) * 2 ^ (8 * bytes.length) ≤ 2 ^ 64 →
      beAcc64 r bytes = beAcc r bytes := by
  induction bytes with
  | nil => intro r _ _; rfl
  | cons b bs ih =>
    intro r hb hbound
    have hblt : b < 256 := hb b (by simp)
    have hlen : 8 * (b :: bs).length = 8 * bs.length + 8 := by
      simp [List.length_cons]; ring
    have hpow : (0 : Nat) < 2 ^ (8 * bs.length) := Nat.pos_pow_of_pos _ (by norm_num)
    have hr256 : (r + 1) * 256 * 2 ^ (8 * bs.length) ≤ 2 ^ 64 := by
      calc (r + 1) * 256 * 2 ^ (8 * bs.length)
          = (r + 1) * 2 ^ (8 * (b :: bs).length) := by rw [hlen, pow_add]; ring
        _ ≤ 2 ^ 64 := hbound
    have hrlt : r * 256 + 256 ≤ 2 ^ 64 := by
      have h1 : (r + 1) * 256 ≤ (r + 1) * 256 * 2 ^ (8 * bs.length) :=
        Nat.le_mul_of_pos_right _ hpow
      omega
    have hstep : u64shl8or r b = r * 256 + b := by
      have e1 : r <<< 8 = r * 256 := by rw [Nat.shiftLeft_eq]
      have e2 : r * 256 % 2 ^ 64 = r * 256 := Nat.mod_eq_of_lt (by omega)
      have e3 : b % 256 = b := Nat.mod_eq_of_lt hblt
      unfold u64shl8or
      rw [e1, e2, e3]
      exact or_eq_add_of_mod_pow_eq_zero 8 (r * 256) b
        (by have h8 : (2 : Nat) ^ 8 = 256 := by norm_num
            rw [h8]; exact Nat.mul_mod_left r 256)
        (by have h8 : (2 : Nat) ^ 8 = 256 := by norm_num
            omega)
    have hnext : (r * 256 + b + 1) * 2 ^ (8 * bs.length) ≤ 2 ^ 64 := by
      have : (r * 256 + b + 1) ≤ (r + 1) * 256 := by omega
      calc (r * 256 + b + 1) * 2 ^ (8 * bs.length)
          ≤ (r + 1) * 256 * 2 ^ (8 * bs.length) := Nat.mul_le_mul_right _ this
        _ ≤ 2 ^ 64 := hr256
    show beAcc64 (u64shl8or r b) bs = beAcc (r * 256 + b) bs
    rw [hstep]
    exact ih (r * 256 + b) (fun x hx => hb x (by simp [hx])) hnext

theorem readExact_some {data : List Nat} {pos n : Nat} {l : List Nat}
    (h : readExact data pos n = some l) :
    l = (data.drop pos).take n ∧ l.length = n := by
  unfold readExact at h
  by_cases hle : pos + n ≤ data.length
  · simp [hle] at h
    refine ⟨h.symm, ?_⟩
    rw [← h]
    simp [List.length_take, List.length_drop]
    omega
  · simp [hle] at h

theorem toI64_small {n : Nat} (h : n < 2 ^ 63) : toI64 n = Int.ofNat n := by
  unfold toI64
  have h64 : n < 2 ^ 64 := lt_trans h (by norm_num)
  rw [Nat.mod_eq_of_lt h64, if_pos h]

/-- C5: an Int object of byte width 2 ^ marker_low with marker_low at most
3 (widths 1, 2, 4, 8) decodes to the big-endian accumulation of its bytes
reinterpreted as a 64-bit pattern, and for widths under 8 bytes the value
is exactly the unsigned accumulation, with no sign extension. -/
theorem c5_int_big_endian (data : List Nat) (pos ml : Nat) (bytes : List Nat)
    (hml : ml ≤ 3)
    (hread : readExact data pos (2 ^ ml) = some bytes)
    (hbytes : ∀ b ∈ bytes, b < 256) :
    loadInt data pos ml = DR.ok (BPList.Int (toI64 (beAcc 0 bytes))) (pos + 2 ^ ml)
    ∧ (ml ≤ 2 → toI64 (beAcc 0 bytes) = Int.ofNat (beAcc 0 bytes)) := by
  have hlen : bytes.length = 2 ^ ml := (readExact_some hread).2
  have hlen8 : bytes.length ≤ 8 := by
    rw [hlen]
    calc 2 ^ ml ≤ 2 ^ 3 := Nat.pow_le_pow_right (by norm_num) hml
      _ = 8 := by norm_num
  have heq : beAcc64 0 bytes = beAcc 0 bytes := by
    apply beAcc64_eq_beAcc bytes 0 hbytes
    have : (8 : Nat) * bytes.length ≤ 64 := by omega
    calc (0 + 1) * 2 ^ (8 * bytes.length) = 2 ^ (8 * bytes.length) := by ring
      _ ≤ 2 ^ 64 := Nat.pow_le_pow_right (by norm_num) this
  constructor
  · unfold loadInt
    rw [hread]
    simp [heq]
  · intro hml2
    apply toI64_small
    have hlt := beAcc_lt bytes 0 hbytes
    have hlen4 : bytes.length ≤ 4 := by
      rw [hlen]
      calc 2 ^ ml ≤ 2 ^ 2 := Nat.pow_le_pow_right (by norm_num) hml2
        _ = 4 := by norm_num
    calc beAcc 0 bytes < (0 + 1) * 2 ^ (8 * bytes.length) := hlt
      _ = 2 ^ (8 * bytes.length) := by ring
      _ ≤ 2 ^ 32 := Nat.pow_le_pow_right (by norm_num) (by omega)
      _ < 2 ^ 63 := by norm_num

/-- C5 witness: the two bytes 0x01 0x02 at width nibble 1 decode to the
Int 258. -/
theorem c5_witness : loadInt [1, 2] 0 1 = DR.ok (BPList.Int 258) 2 :=
  (c5_int_big_endian [1, 2] 0 1 [1, 2] (by norm_num) rfl (by decide)).1

/-- C9: from_be_bytes panics (modelled by none) exactly on byte slices
longer than 8, totally returns the big-endian unsigned value on slices of
length at most 8, and any read loop driven by a declared width over 8
bytes, such as ReferenceTable::load with such a trailer width or the
reference runs of load_array and load_dict, reaches that panic instead of
returning an Error value. -/
theorem c9_from_be_bytes :
    (∀ bytes : List Nat,
      (8 < bytes.length → fromBeBytes bytes = none)
      ∧ (bytes.length ≤ 8 → (∀ b ∈ bytes, b < 256) →
          fromBeBytes bytes = some (beAcc 0 bytes)))
    ∧ (∀ (data : List Nat) (size count pos : Nat),
        8 < size → 0 < count → pos + size ≤ data.length →
        readBeInts data size count pos = DR.crash) := by
  constructor
  · intro bytes
    constructor
    · intro hlong
      unfold fromBeBytes
      simp [hlong]
    · intro hle hb
      unfold fromBeBytes
      have hnot : ¬ bytes.length > 8 := by omega
      simp only [hnot, if_false]
      congr 1
      apply beAcc64_eq_beAcc bytes 0 hb
      have : (8 : Nat) * bytes.length ≤ 64 := by omega
      calc (0 + 1) * 2 ^ (8 * bytes.length) = 2 ^ (8 * bytes.length) := by ring
        _ ≤ 2 ^ 64 := Nat.pow_le_pow_right (by norm_num) this
  · intro data size count pos hsize hcount hle
    obtain ⟨k, rfl⟩ : ∃ k, count = k + 1 := ⟨count - 1, by omega⟩
    show readBeInts data size (k + 1) pos = DR.crash
    unfold readBeInts
    have hread : readExact data pos size = some ((data.drop pos).take size) := by
      unfold readExact
      simp [hle]
    rw [hread]
    have hlen : ((data.drop pos).take size).length = size := by
      simp [List.length_take, List.length_drop]
      omega
    have hfb : fromBeBytes ((data.drop pos).take size) = none := by
      unfold fromBeBytes
      simp [hlen, hsize]
    simp [hfb]

/-- C9 witness: a 9-byte slice panics, a 2-byte slice returns 258, and a
reference-table load whose declared entry width is 9 panics on a 10-byte
source. -/
theorem c9_witness :
    fromBeBytes [1, 2, 3, 4, 5, 6, 7, 8, 9] = none
    ∧ fromBeBytes [1, 2] = some 258
    ∧ readBeInts (List.replicate 10 0) 9 1 0 = DR.crash :=
  ⟨(c9_from_be_bytes.1 [1, 2, 3, 4, 5, 6, 7, 8, 9]).1 (by norm_num),
   (c9_from_be_bytes.1 [1, 2]).2 (by norm_num) (by decide),
   c9_from_be_bytes.2 (List.replicate 10 0) 9 1 0 (by norm_num) (by norm_num)
     (by simp)⟩

/-- C2: a decoder positioned at an object whose marker high nibble is 3
(Date) or 12 (Set) crashes through the todo macro instead of returning a
NotImplemented error: the dispatch of load_item reaches a panic, modelled
by DR.crash, and the Error enum offers no NotImplemented variant at all. -/
theorem c2_date_set_markers_crash (data : List Nat) (t : Trailer) (rt : List Nat)
    (fuel pos mb : Nat) (hget : data[pos]? = some mb)
    (hm : mb % 256 / 16 = 3 ∨ mb % 256 / 16 = 12) :
    loadItem data t rt (fuel + 1) pos = DR.crash := by
  cases hm with
  | inl h => simp [loadItem, hget, h]
  | inr h => simp [loadItem, hget, h]

/-- C2 witness: the Date marker byte 0x33 and the Set marker byte 0xC0
both crash the decoder. -/
theorem c2_witness :
    loadItem [51] (Trailer.mk 0 0 0 0 0) [] 1 0 = DR.crash
    ∧ loadItem [192] (Trailer.mk 0 0 0 0 0) [] 1 0 = DR.crash :=
  ⟨c2_date_set_markers_crash [51] (Trailer.mk 0 0 0 0 0) [] 0 0 51 rfl (Or.inl rfl),
   c2_date_set_markers_crash [192] (Trailer.mk 0 0 0 0 0) [] 0 0 192 rfl (Or.inr rfl)⟩

/-- C4: for every length-carrying object, a marker low nibble other than
0xF is itself the count, while a low nibble of 0xF obtains the count by
decoding the immediately following object, which must be an Int; any
other decoded variant there fails with the InvalidFormat error. -/
theorem c4_escape_length (li : Nat → DR BPList) (marker_low pos : Nat) :
    (marker_low ≠ 15 →
      loadLength li marker_low pos = DR.ok (Int.ofNat marker_low) pos)
    ∧ (marker_low = 15 →
        (∀ (n : Int) (p : Nat), li pos = DR.ok (BPList.Int n) p →
          loadLength li marker_low pos = DR.ok n p)
        ∧ (∀ (v : BPList) (p : Nat), li pos = DR.ok v p →
            (∀ n : Int, v ≠ BPList.Int n) →
            loadLength li marker_low pos =
              DR.err (Err.InvalidFormat "invalid dict size"))) := by
  constructor
  · intro hne
    simp [loadLength, hne]
  · intro he
    subst he
    constructor
    · intro n p hli
      simp [loadLength, hli]
    · intro v p hli hv
      cases v with
      | Int n => exact absurd rfl (hv n)
      | Null => simp [loadLength, hli]
      | Bool b => simp [loadLength, hli]
      | Filler => simp [loadLength, hli]
      | Real bits => simp [loadLength, hli]
      | Data bytes => simp [loadLength, hli]
      | Str s => simp [loadLength, hli]
      | UID bytes => simp [loadLength, hli]
      | Array items => simp [loadLength, hli]
      | Dict items => simp [loadLength, hli]

/-- C4 witness: a direct nibble 7 is the count 7, an escape nibble with a
following Int 5 yields 5, and an escape nibble with a following Null is
the InvalidFormat error. -/
theorem c4_witness :
    loadLength (fun _ => DR.ok (BPList.Int 5) 3) 15 0 = DR.ok 5 3
    ∧ loadLength (fun _ => DR.ok BPList.Null 3) 15 0
        = DR.err (Err.InvalidFormat "invalid dict size")
    ∧ loadLength (fun _ => DR.fuel) 7 2 = DR.ok 7 2 :=
  ⟨((c4_escape_length (fun _ => DR.ok (BPList.Int 5) 3) 15 0).2 rfl).1 5 3 rfl,
   ((c4_escape_length (fun _ => DR.ok BPList.Null 3) 15 0).2 rfl).2 BPList.Null 3 rfl
     (fun n h => BPList.noConfusion h),
   (c4_escape_length (fun _ => DR.fuel) 7 2).1 (by norm_num)⟩

theorem beq_real_right (x : BPList) (bits : Nat) :
    beq x (BPList.Real bits) = false := by
  cases x <;> rfl

theorem beq_array_right (x : BPList) (l : List BPList) :
    beq x (BPList.Array l) = false := by
  cases x <;> rfl

theorem beq_dict_right (x : BPList) (l : List (BPList × BPList)) :
    beq x (BPList.Dict l) = false := by
  cases x <;> rfl

theorem getLoop_eq_find (lookup_key : BPList) (items : List (BPList × BPList)) :
    getLoop lookup_key items =
      (match items.find? (fun kv => beq kv.1 lookup_key) with
       | some kv => Except.ok kv.2
       | none => Except.error Err.NotFound) := by
  induction items with
  | nil => rfl
  | cons kv rest ih =>
    obtain ⟨k, v⟩ := kv
    by_cases hk : beq k lookup_key
    · simp [getLoop, hk, List.find?_cons_of_pos]
    · rw [getLoop]
      simp only [hk, if_false]
      rw [ih]
      have hf : List.find? (fun kv => beq kv.1 lookup_key) ((k, v) :: rest)
          = List.find? (fun kv => beq kv.1 lookup_key) rest :=
        List.find?_cons_of_neg _ (by simpa using hk)
      rw [hf]
      simp

theorem getLoop_never (lookup_key : BPList)
    (hk : ∀ x, beq x lookup_key = false) :
    ∀ items, getLoop lookup_key items = Except.error Err.NotFound := by
  intro items
  induction items with
  | nil => rfl
  | cons kv rest ih =>
    obtain ⟨k, v⟩ := kv
    simp [getLoop, hk k, ih]

/-- C6: lookup on a Dict scans the pairs in declaration order and returns
the value of the first pair whose key is structurally equal to the
candidate under PartialEq, NotFound otherwise; gets and geti wrap their
argument into Str and Int before delegating; and Real, Array and Dict
candidates are structurally equal to nothing, so using one as a lookup
key always yields NotFound (and, the functions being total, never
raises). -/
theorem c6_dict_lookup :
    (∀ (items : List (BPList × BPList)) (lookup_key : BPList),
      get (BPList.Dict items) lookup_key =
        (match items.find? (fun kv => beq kv.1 lookup_key) with
         | some kv => Except.ok kv.2
         | none => Except.error Err.NotFound))
    ∧ (∀ (self : BPList) (s : List Nat), gets self s = get self (BPList.Str s))
    ∧ (∀ (self : BPList) (n : Nat), geti self n = get self (BPList.Int (toI64 n)))
    ∧ (∀ (x : BPList) (bits : Nat), beq x (BPList.Real bits) = false)
    ∧ (∀ (x : BPList) (l : List BPList), beq x (BPList.Array l) = false)
    ∧ (∀ (x : BPList) (l : List (BPList × BPList)), beq x (BPList.Dict l) = false)
    ∧ (∀ (items : List (BPList × BPList)) (bits : Nat),
        get (BPList.Dict items) (BPList.Real bits) = Except.error Err.NotFound)
    ∧ (∀ (items : List (BPList × BPList)) (l : List BPList),
        get (BPList.Dict items) (BPList.Array l) = Except.error Err.NotFound)
    ∧ (∀ (items : List (BPList × BPList)) (l : List (BPList × BPList)),
        get (BPList.Dict items) (BPList.Dict l) = Except.error Err.NotFound) :=
  ⟨fun items lookup_key => getLoop_eq_find lookup_key items,
   fun _ _ => rfl,
   fun _ _ => rfl,
   beq_real_right,
   beq_array_right,
   beq_dict_right,
   fun items bits => getLoop_never (BPList.Real bits)
     (fun x => beq_real_right x bits) items,
   fun items l => getLoop_never (BPList.Array l)
     (fun x => beq_array_right x l) items,
   fun items l => getLoop_never (BPList.Dict l)
     (fun x => beq_dict_right x l) items⟩

/-- C10: get on any receiver that is not a Dict is the NotFound error for
every candidate key, and likewise through the gets and geti wrappers. -/
theorem c10_non_dict_lookup (self lookup_key : BPList)
    (h : ∀ entries, self ≠ BPList.Dict entries) :
    get self lookup_key = Except.error Err.NotFound
    ∧ (∀ s, gets self s = Except.error Err.NotFound)
    ∧ (∀ n, geti self n = Except.error Err.NotFound) := by
  cases self with
  | Dict entries => exact absurd rfl (h entries)
  | Null => exact ⟨rfl, fun _ => rfl, fun _ => rfl⟩
  | Bool b => exact ⟨rfl, fun _ => rfl, fun _ => rfl⟩
  | Filler => exact ⟨rfl, fun _ => rfl, fun _ => rfl⟩
  | Int n => exact ⟨rfl, fun _ => rfl, fun _ => rfl⟩
  | Real bits => exact ⟨rfl, fun _ => rfl, fun _ => rfl⟩
  | Data bytes => exact ⟨rfl, fun _ => rfl, fun _ => rfl⟩
  | Str s => exact ⟨rfl, fun _ => rfl, fun _ => rfl⟩
  | UID bytes => exact ⟨rfl, fun _ => rfl, fun _ => rfl⟩
  | Array items => exact ⟨rfl, fun _ => rfl, fun _ => rfl⟩

/-- C10 witness: a lookup on the Null value misses. -/
theorem c10_witness : get BPList.Null BPList.Null = Except.error Err.NotFound :=
  (c10_non_dict_lookup BPList.Null BPList.Null
    (fun _ h => BPList.noConfusion h)).1

/-- C1: on the 44-byte file c1file, whose trailer names table index 1 as
the root and whose reference table maps index 1 to byte offset 9, load
returns the object decoded at byte offset 8, the position right after the
magic, which differs from the object at the offset the reference table
assigns to the root index. -/
theorem c1_load_ignores_root_index :
    load c1file 10 = DR.ok (BPList.Bool true) 9
    ∧ trailerLoad c1file 12 = DR.ok (Trailer.mk 1 1 2 1 10) 44
    ∧ referenceTableLoad c1file (Trailer.mk 1 1 2 1 10) 10 = DR.ok [8, 9] 12
    ∧ ([8, 9] : List Nat)[1]? = some 9
    ∧ loadItem c1file (Trailer.mk 1 1 2 1 10) [8, 9] 10 9 = DR.ok (BPList.Bool false) 10
    ∧ BPList.Bool true ≠ BPList.Bool false :=
  ⟨rfl, rfl, rfl, rfl, rfl, by simp⟩

/-- C7 counterexample: a file whose first 8 bytes are 0xFF fails with
EncodingError, not with an InvalidFormat error as the claim states. -/
theorem c7_counterexample :
    load badMagicFile 1 = DR.err Err.EncodingError
    ∧ drIsInvalidFormat (load badMagicFile 1) = false :=
  ⟨rfl, rfl⟩

/-- C7 amended: on an input of at least 8 bytes whose first 8 bytes do
not decode to bplist00, load fails with InvalidFormat when those bytes
are valid UTF-8 and with EncodingError when they are not, and in both
cases the outcome depends only on the first 8 bytes: no trailer, offset
table or object bytes are consumed. -/
theorem c7_magic_check (data : List Nat) (fuel : Nat) (h8 : 8 ≤ data.length)
    (hbad : ∀ s, decodeUtf8 (data.take 8) = some s → s ≠ bplist00) :
    (decodeUtf8 (data.take 8) = none → load data fuel = DR.err Err.EncodingError)
    ∧ (∀ s, decodeUtf8 (data.take 8) = some s →
        load data fuel = DR.err (Err.InvalidFormat "invalid magic string"))
    ∧ (∀ (data2 : List Nat) (fuel2 : Nat), 8 ≤ data2.length →
        data2.take 8 = data.take 8 → load data2 fuel2 = load data fuel) := by
  have hread : ∀ d : List Nat, 8 ≤ d.length → readExact d 0 8 = some (d.take 8) := by
    intro d hd
    unfold readExact
    simp [hd]
  have key : ∀ (d : List Nat) (f : Nat), 8 ≤ d.length → d.take 8 = data.take 8 →
      load d f = (match decodeUtf8 (data.take 8) with
        | none => DR.err Err.EncodingError
        | some _ => DR.err (Err.InvalidFormat "invalid magic string")) := by
    intro d f hd heq
    unfold load
    rw [hread d hd, heq]
    cases hdec : decodeUtf8 (data.take 8) with
    | none => simp [hdec]
    | some s =>
      have hne : s ≠ bplist00 := hbad s hdec
      simp [hdec, hne]
  refine ⟨?_, ?_, ?_⟩
  · intro hdec
    rw [key data fuel h8 rfl, hdec]
  · intro s hdec
    rw [key data fuel h8 rfl, hdec]
  · intro data2 fuel2 h2 heq
    rw [key data2 fuel2 h2 heq, key data fuel h8 rfl]

/-- C7 witness: the amended statement applied to the concrete 0xFF file. -/
theorem c7_witness : load badMagicFile 1 = DR.err Err.EncodingError :=
  (c7_magic_check badMagicFile 1 (by decide)
    (fun s hs => by
      rw [show decodeUtf8 (badMagicFile.take 8) = none from rfl] at hs
      cases hs)).1 rfl

/-- C8 counterexample: an odd-length byte span fails in as_utf16 with the
InvalidFormat error, not with EncodingError (the TextEncodingFailure of
the claim). -/
theorem c8_counterexample :
    asUtf16 [0] = Except.error (Err.InvalidFormat "utf16 buf must be even length")
    ∧ exceptIsEncodingFailure (asUtf16 [0]) = false :=
  ⟨rfl, rfl⟩

/-- C8 amended: the UTF-16 loader reads length * 2 bytes and hands them to
as_utf16, which combines them into big-endian 16-bit code units; an odd
byte count fails with InvalidFormat (not EncodingError), and an invalid
code-unit sequence fails with EncodingError. -/
theorem c8_utf16_errors :
    (∀ buf : List Nat, buf.length % 2 = 1 →
      asUtf16 buf = Except.error (Err.InvalidFormat "utf16 buf must be even length"))
    ∧ (∀ buf : List Nat, buf.length % 2 = 0 →
        utf16Decode (combineUtf16 buf) = none →
        asUtf16 buf = Except.error Err.EncodingError)
    ∧ (∀ (buf s : List Nat), buf.length % 2 = 0 →
        utf16Decode (combineUtf16 buf) = some s → asUtf16 buf = Except.ok s)
    ∧ (∀ (data : List Nat) (li : Nat → DR BPList) (marker_low pos : Nat)
        (len : Int) (p : Nat) (buf : List Nat),
        loadLength li marker_low pos = DR.ok len p →
        readExact data p (usizeOfI64 len * 2 % 2 ^ 64) = some buf →
        loadUtf16Str data li marker_low pos =
          (match asUtf16 buf with
           | Except.error e => DR.err e
           | Except.ok s => DR.ok (BPList.Str s) (p + usizeOfI64 len * 2 % 2 ^ 64))) := by
  refine ⟨?_, ?_, ?_, ?_⟩
  · intro buf hodd
    have hne : buf.length % 2 ≠ 0 := by omega
    simp [asUtf16, hne]
  · intro buf heven hdec
    simp [asUtf16, heven, hdec]
  · intro buf s heven hdec
    simp [asUtf16, heven, hdec]
  · intro data li marker_low pos len p buf hlen hread
    unfold loadUtf16Str
    rw [hlen]
    show (match readExact data p (usizeOfI64 len * 2 % 2 ^ 64) with
      | none => DR.err Err.IOError
      | some buf =>
        match asUtf16 buf with
        | Except.error e => DR.err e
        | Except.ok s => DR.ok (BPList.Str s) (p + usizeOfI64 len * 2 % 2 ^ 64)) = _
    rw [hread]

/-- C8 witness: the amended statement applied at the odd span 0x00, the
lone high surrogate 0xD800, the valid span for a, and a full UTF-16
string load. -/
theorem c8_witness :
    asUtf16 [0] = Except.error (Err.InvalidFormat "utf16 buf must be even length")
    ∧ asUtf16 [216, 0] = Except.error Err.EncodingError
    ∧ asUtf16 [0, 97] = Except.ok [97]
    ∧ loadUtf16Str [0, 97] (fun _ => DR.fuel) 1 0 = DR.ok (BPList.Str [97]) 2 :=
  ⟨c8_utf16_errors.1 [0] rfl,
   c8_utf16_errors.2.1 [216, 0] rfl rfl,
   c8_utf16_errors.2.2.1 [0, 97] [97] rfl rfl,
   c8_utf16_errors.2.2.2 [0, 97] (fun _ => DR.fuel) 1 0 1 0 [0, 97] rfl rfl⟩

theorem DR.bind_eq_ok {α β : Type} {x : DR α} {f : α → Nat → DR β} {b : β} {q : Nat}
    (h : DR.bind x f = DR.ok b q) :
    ∃ v p, x = DR.ok v p ∧ f v p = DR.ok b q := by
  cases x with
  | ok v p => exact ⟨v, p, rfl, h⟩
  | err e => exact absurd h (by simp [DR.bind])
  | crash => exact absurd h (by simp [DR.bind])
  | fuel => exact absurd h (by simp [DR.bind])

theorem readBeInts_ok_length (data : List Nat) (size : Nat) :
    ∀ (count pos : Nat) (refs : List Nat) (pend : Nat),
      readBeInts data size count pos = DR.ok refs pend → refs.length = count := by
  intro count
  induction count with
  | zero =>
    intro pos refs pend h
    simp only [readBeInts, DR.ok.injEq] at h
    rw [← h.1]
    rfl
  | succ k ih =>
    intro pos refs pend h
    simp only [readBeInts] at h
    cases hre : readExact data pos size with
    | none =>
      simp only [hre] at h
      exact absurd h (by simp)
    | some buf =>
      simp only [hre] at h
      cases hfb : fromBeBytes buf with
      | none =>
        simp only [hfb] at h
        exact absurd h (by simp)
      | some r =>
        simp only [hfb] at h
        obtain ⟨rest, p2, hrec, hf⟩ := DR.bind_eq_ok h
        have h2 : r :: rest = refs ∧ p2 = pend := by simpa using hf
        rw [← h2.1]
        simp [ih (pos + size) rest p2 hrec]

theorem loadDictItems_ok_spec (li : Nat → DR BPList) (rt : List Nat) :
    ∀ (prs : List (Nat × Nat)) (pos : Nat) (objs : List (BPList × BPList)) (pend : Nat),
      loadDictItems li rt prs pos = DR.ok objs pend →
      objs.length = prs.length
      ∧ ∀ (i kr vr : Nat), prs[i]? = some (kr, vr) →
          ∃ (key value : BPList) (offk offv pk pv : Nat),
            objs[i]? = some (key, value)
            ∧ rt[kr]? = some offk ∧ li offk = DR.ok key pk
            ∧ rt[vr]? = some offv ∧ li offv = DR.ok value pv := by
  intro prs
  induction prs with
  | nil =>
    intro pos objs pend h
    simp only [loadDictItems, DR.ok.injEq] at h
    constructor
    · rw [← h.1]
      rfl
    · intro i kr vr hik
      simp at hik
  | cons pr rest ih =>
    obtain ⟨kr0, vr0⟩ := pr
    intro pos objs pend h
    simp only [loadDictItems] at h
    cases hrk : rt[kr0]? with
    | none =>
      simp only [hrk] at h
      exact absurd h (by simp)
    | some offk =>
      simp only [hrk] at h
      obtain ⟨key, pk, hlik, h⟩ := DR.bind_eq_ok h
      cases hrv : rt[vr0]? with
      | none =>
        simp only [hrv] at h
        exact absurd h (by simp)
      | some offv =>
        simp only [hrv] at h
        obtain ⟨value, pv, hliv, h⟩ := DR.bind_eq_ok h
        obtain ⟨objs2, p5, hrec, h⟩ := DR.bind_eq_ok h
        have h2 : (key, value) :: objs2 = objs ∧ p5 = pend := by simpa using h
        obtain ⟨ihlen, ihspec⟩ := ih pv objs2 p5 hrec
        rw [← h2.1]
        constructor
        · simp [ihlen]
        · intro i kr vr hik
          cases i with
          | zero =>
            rw [List.getElem?_cons_zero] at hik
            have hp : (kr0, vr0) = (kr, vr) := Option.some.inj hik
            injection hp with hkr hvr
            subst hkr
            subst hvr
            exact ⟨key, value, offk, offv, pk, pv, by simp, hrk, hlik, hrv, hliv⟩
          | succ j =>
            rw [List.getElem?_cons_succ] at hik
            obtain ⟨k2, v2, ok2, ov2, pk2, pv2, he, a1, a2, a3, a4⟩ :=
              ihspec j kr vr hik
            exact ⟨k2, v2, ok2, ov2, pk2, pv2,
              by rw [List.getElem?_cons_succ]; exact he, a1, a2, a3, a4⟩

/-- C3: a successfully decoded Dict with declared count N was produced by
reading N contiguous key-references and then N contiguous
value-references as two separate runs, pairing them positionally: the
entry list has exactly N pairs in file declaration order, and the key and
value of the pair at every index i are the results of directly decoding
the objects at the offsets the reference table resolves for the i-th
key-reference and the i-th value-reference. -/
theorem c3_dict_two_runs_pairing (data : List Nat) (t : Trailer) (rt : List Nat)
    (fuel marker_low pos : Nat) (entries : List (BPList × BPList)) (pend : Nat)
    (h : loadDict data (loadItem data t rt fuel) t rt marker_low pos
        = DR.ok (BPList.Dict entries) pend) :
    ∃ (n : Int) (p1 : Nat) (keyrefs : List Nat) (p2 : Nat) (objrefs : List Nat) (p3 : Nat),
      loadLength (loadItem data t rt fuel) marker_low pos = DR.ok n p1
      ∧ readBeInts data t.object_ref_size n.toNat p1 = DR.ok keyrefs p2
      ∧ readBeInts data t.object_ref_size n.toNat p2 = DR.ok objrefs p3
      ∧ keyrefs.length = n.toNat
      ∧ objrefs.length = n.toNat
      ∧ entries.length = n.toNat
      ∧ (∀ (i kr vr : Nat), keyrefs[i]? = some kr → objrefs[i]? = some vr →
          ∃ key value, entries[i]? = some (key, value)
            ∧ decodeAt data t rt fuel kr = some key
            ∧ decodeAt data t rt fuel vr = some value) := by
  unfold loadDict at h
  obtain ⟨n, p1, hn, h⟩ := DR.bind_eq_ok h
  obtain ⟨keyrefs, p2, hk, h⟩ := DR.bind_eq_ok h
  obtain ⟨objrefs, p3, hv, h⟩ := DR.bind_eq_ok h
  obtain ⟨objs, p4, hd, h⟩ := DR.bind_eq_ok h
  have h2 : BPList.Dict objs = BPList.Dict entries ∧ p4 = pend := by simpa using h
  have hoe : objs = entries := by
    have := h2.1
    injection this
  subst hoe
  have hklen := readBeInts_ok_length data t.object_ref_size n.toNat p1 keyrefs p2 hk
  have hvlen := readBeInts_ok_length data t.object_ref_size n.toNat p2 objrefs p3 hv
  obtain ⟨hdlen, hdspec⟩ :=
    loadDictItems_ok_spec (loadItem data t rt fuel) rt (keyrefs.zip objrefs) p3 objs p4 hd
  refine ⟨n, p1, keyrefs, p2, objrefs, p3, hn, hk, hv, hklen, hvlen, ?_, ?_⟩
  · rw [hdlen, List.length_zip, hklen, hvlen]
    simp
  · intro i kr vr hik hiv
    have hzip : (keyrefs.zip objrefs)[i]? = some (kr, vr) := by
      rw [List.getElem?_zip_eq_some]
      exact ⟨hik, hiv⟩
    obtain ⟨key, value, offk, offv, pk, pv, he, hrk, hlik, hrv, hliv⟩ :=
      hdspec i kr vr hzip
    refine ⟨key, value, he, ?_, ?_⟩
    · simp [decodeAt, hrk, hlik, drVal]
    · simp [decodeAt, hrv, hliv, drVal]

/-- C3 witness: a one-entry dict over the 4-byte source 00 01 09 08 with
reference table [2, 3] pairs the key decoded at offset 2 (true) with the
value decoded at offset 3 (false). -/
theorem c3_witness :
    loadDict [0, 1, 9, 8]
        (loadItem [0, 1, 9, 8] (Trailer.mk 1 1 2 0 0) [2, 3] 1)
        (Trailer.mk 1 1 2 0 0) [2, 3] 1 0
      = DR.ok (BPList.Dict [(BPList.Bool true, BPList.Bool false)]) 4
    ∧ ([(BPList.Bool true, BPList.Bool false)]
        : List (BPList × BPList)).length = (1 : Int).toNat
    ∧ decodeAt [0, 1, 9, 8] (Trailer.mk 1 1 2 0 0) [2, 3] 1 0 = some (BPList.Bool true)
    ∧ decodeAt [0, 1, 9, 8] (Trailer.mk 1 1 2 0 0) [2, 3] 1 1 = some (BPList.Bool false) := by
  obtain ⟨n, p1, keyrefs, p2, objrefs, p3, hn, hk, hv, hklen, hvlen, hlen, hidx⟩ :=
    c3_dict_two_runs_pairing [0, 1, 9, 8] (Trailer.mk 1 1 2 0 0) [2, 3] 1 1 0
      [(BPList.Bool true, BPList.Bool false)] 4 rfl
  have e1 : (Int.ofNat 1 : Int) = n ∧ (0 : Nat) = p1 := by
    have rflc : loadLength (loadItem [0, 1, 9, 8] (Trailer.mk 1 1 2 0 0) [2, 3] 1) 1 0
        = DR.ok (Int.ofNat 1) 0 := rfl
    simpa using rflc.symm.trans hn
  obtain ⟨hn1, hp1⟩ := e1
  subst hn1
  subst hp1
  have e2 : ([0] : List Nat) = keyrefs ∧ (1 : Nat) = p2 := by
    have rflc : readBeInts [0, 1, 9, 8] (Trailer.mk 1 1 2 0 0).object_ref_size
        (Int.ofNat 1).toNat 0 = DR.ok [0] 1 := rfl
    simpa using rflc.symm.trans hk
  obtain ⟨hk1, hp2⟩ := e2
  subst hk1
  subst hp2
  have e3 : ([1] : List Nat) = objrefs ∧ (2 : Nat) = p3 := by
    have rflc : readBeInts [0, 1, 9, 8] (Trailer.mk 1 1 2 0 0).object_ref_size
        (Int.ofNat 1).toNat 1 = DR.ok [1] 2 := rfl
    simpa using rflc.symm.trans hv
  obtain ⟨hv1, hp3⟩ := e3
  subst hv1
  subst hp3
  obtain ⟨key, value, he, hd1, hd2⟩ := hidx 0 0 1 rfl rfl
  have hkv := he
  simp only [List.getElem?_cons_zero] at hkv
  have hp := Option.some.inj hkv
  injection hp with h1 h2
  subst h1
  subst h2
  exact ⟨rfl, hlen, hd1, hd2⟩

end BplistRs
